import Mathlib

/-!
Verification of the natural-language specification of the `ai-eval-pipeline`
repository (single source file `src/main.py`) against a shallow Lean embedding
of its code.

The program has three verifiable parts:

* `clean_llm_response` (src/main.py lines 92-114): a pure string normalizer
  that strips Markdown code fences and a leading `json` token;
* the URL-resolution part of `fetch_github_code` (lines 40-86): parsing a
  GitHub blob URL into `(owner, repo, branch, path)` and building the API URL;
* the per-case evaluation loop of `run_evaluation` (lines 120-219): invoking
  a model per case, normalizing, parsing, collecting report entries and debug
  artifacts, then writing the report.

Python strings are embedded as `List Char`.  The Python standard-library
string operations used by the source (`strip`, `startswith`, `endswith`,
`in`, `split`, `replace`, `splitlines`, `lower`, slicing) are given
executable Lean models (`pyStrip`, `pyStartsWith`, ...) that follow Python's
documented semantics.  External effects (HTTP, the LLM, `json.loads`, the
filesystem) are abstracted as parameters or explicit outcome values; the
control flow around them is translated from the source.
-/

namespace AIEval

/-! ### Python string primitives -/

/-- Whitespace characters stripped by Python `str.strip()` (the ASCII/Latin-1
whitespace set plus the line/paragraph separators; more exotic Unicode space
code points do not occur in any statement below). -/
def isPySpace (c : Char) : Bool :=
  c == ' ' || c == '\t' || c == '\n' || c == '\r' || c == '\x0b' || c == '\x0c' ||
  c == '\x1c' || c == '\x1d' || c == '\x1e' || c == '\x85' || c == '\xa0' ||
  c == '\u2028' || c == '\u2029'

/-- Python `s.strip()`: drop leading and trailing whitespace. -/
def pyStrip (s : List Char) : List Char :=
  ((s.dropWhile isPySpace).reverse.dropWhile isPySpace).reverse

/-- Python `s.startswith(p)`. -/
def pyStartsWith : List Char → List Char → Bool
  | [], _ => true
  | _ :: _, [] => false
  | p :: ps, c :: cs => p == c && pyStartsWith ps cs

/-- Python `s.endswith(p)`. -/
def pyEndsWith (p s : List Char) : Bool :=
  pyStartsWith p.reverse s.reverse

/-- Python `p in s` (substring containment). -/
def pyContains (needle : List Char) : List Char → Bool
  | [] => needle.isEmpty
  | c :: cs => pyStartsWith needle (c :: cs) || pyContains needle cs

/-- Worker for Python `s.split(sep)` with a nonempty separator: scan `s` left
to right; on a separator match emit the accumulated segment (held reversed in
`acc`) and skip the separator (`skip` counts separator characters still to be
consumed).  Matches are leftmost and non-overlapping, as in Python. -/
def pySplitGo (sep : List Char) : List Char → Nat → List Char → List (List Char)
  | acc, _, [] => [acc.reverse]
  | acc, k + 1, _ :: cs => pySplitGo sep acc k cs
  | acc, 0, c :: cs =>
    if pyStartsWith sep (c :: cs) then
      acc.reverse :: pySplitGo sep [] (sep.length - 1) cs
    else
      pySplitGo sep (c :: acc) 0 cs

/-- Python `s.split(sep)` for a nonempty separator `sep`. -/
def pySplit (sep s : List Char) : List (List Char) :=
  pySplitGo sep [] 0 s

/-- Python `s.replace(old, new)` for a nonempty `old`: replace every
(leftmost, non-overlapping) occurrence. -/
def pyReplace (old new s : List Char) : List Char :=
  List.intercalate new (pySplit old s)

/-- Line-boundary characters recognized by Python `str.splitlines()`. -/
def isLineBreak (c : Char) : Bool :=
  c == '\n' || c == '\r' || c == '\x0b' || c == '\x0c' || c == '\x1c' ||
  c == '\x1d' || c == '\x1e' || c == '\x85' || c == '\u2028' || c == '\u2029'

/-- Python `s.splitlines()`: split at line boundaries (treating `\r\n` as a
single boundary), with no trailing empty line for a trailing boundary. -/
def pySplitlines : List Char → List (List Char)
  | [] => []
  | [c] => if isLineBreak c then [[]] else [[c]]
  | c :: d :: cs =>
    if c = '\r' ∧ d = '\n' then [] :: pySplitlines cs
    else if isLineBreak c then [] :: pySplitlines (d :: cs)
    else
      match pySplitlines (d :: cs) with
      | [] => [[c]]
      | l :: ls => (c :: l) :: ls

/-! ### The Response Normalizer (`clean_llm_response`, src/main.py 92-114) -/

/-- The triple-backtick fence marker. -/
def fenceTok : List Char := ("```" : String).toList

/-- The literal token `json`. -/
def jsonTok : List Char := ("json" : String).toList

/-- Lines 106-108 of the source: if the text both starts and ends with the
fence, drop the first and last line and re-join with newlines, re-trimming. -/
def stripFence (cleaned : List Char) : List Char :=
  if pyStartsWith fenceTok cleaned && pyEndsWith fenceTok cleaned then
    pyStrip (List.intercalate ['\n'] (((pySplitlines cleaned).drop 1).dropLast))
  else cleaned

/-- Lines 111-112 of the source: if the lowercased text starts with `json`,
drop those four characters and re-trim. -/
def stripJsonTag (cleaned : List Char) : List Char :=
  if pyStartsWith jsonTok (cleaned.map Char.toLower) then
    pyStrip (cleaned.drop 4)
  else cleaned

/-- `clean_llm_response` from src/main.py lines 92-114: trim, strip a fenced
Markdown block, then strip an accidental leading `json` token. -/
def clean_llm_response (raw : List Char) : List Char :=
  stripJsonTag (stripFence (pyStrip raw))

/-! ### The URL Resolver (`fetch_github_code`, src/main.py 40-86)

The HTTP request itself (lines 78-81) is an external effect; what is modelled
is the pure URL-resolution logic: validation of the blob URL (line 53), the
split/unpack steps (lines 59-64), and the construction of the API URL
(line 67).  A Python unpacking `a, b = xs` of a list whose length is not
exactly 2 raises `ValueError`, which the bare `except` catches, returning
`None`; the `match` arms below with a catch-all `none` model exactly that. -/

/-- The `(owner, repo, branch, path)` request descriptor derived from a blob
URL. -/
structure RawContentRequest where
  owner : List Char
  repo : List Char
  branch : List Char
  path : List Char

/-- The URL-resolution portion of `fetch_github_code` (src/main.py 40-67):
returns the request descriptor, or `none` where the Python code returns
`None` (invalid URL) or raises inside the `try` (malformed unpacking), which
the blanket `except` also converts to `None`. -/
def fetch_github_code_resolve (url : List Char) : Option RawContentRequest :=
  if !(pyContains (("github.com" : String).toList) url) ||
      !(pyContains (("/blob/" : String).toList) url) then
    none
  else
    match pySplit (("/blob/" : String).toList) url with
    | [base, path_part] =>
      match (pySplit (("/" : String).toList)
              (pyReplace (("https://github.com/" : String).toList) [] base)).take 2 with
      | [owner, repo] =>
        match pySplit (("/" : String).toList) path_part with
        | branch :: file_parts =>
          some { owner := owner, repo := repo, branch := branch,
                 path := List.intercalate (("/" : String).toList) file_parts }
        | [] => none
      | _ => none
    | _ => none

/-- The GitHub API URL built on line 67 of the source:
`https://api.github.com/repos/{owner}/{repo}/contents/{file_path}?ref={branch}`. -/
def api_url (r : RawContentRequest) : List Char :=
  ("https://api.github.com/repos/" : String).toList ++ r.owner ++
    ("/" : String).toList ++ r.repo ++ ("/contents/" : String).toList ++ r.path ++
    ("?ref=" : String).toList ++ r.branch

/-! ### The Evaluation Orchestrator (`run_evaluation`, src/main.py 120-219)

External effects are abstracted:
* the model invocation (lines 190-193) becomes a parameter
  `respond : Case → List Char` giving each case's raw response text;
* `json.loads` (line 200) becomes a parameter
  `parse : List Char → Option Json` (`none` models `json.JSONDecodeError`);
* filesystem writes are recorded in the returned `RunOutcome` — `debugWrites`
  lists the `(filename, contents)` pairs written at lines 206-208, in order,
  and `reportFile` is the report content written at line 218 (or `none` if
  execution never reaches the write).

The control flow around these effects is translated from the source.  Python
`evaluation["input_id"] = input_id` on a non-dict value raises `TypeError`,
which the `except json.JSONDecodeError` clause does not catch, so the run
aborts; this is the `aborted := true` outcome. -/

/-- JSON values, as produced by `json.loads`. -/
inductive Json where
  | null : Json
  | bool : Bool → Json
  | num : Int → Json
  | str : List Char → Json
  | arr : List Json → Json
  | obj : List (List Char × Json) → Json

/-- Whether a JSON value is an object (a Python dict). -/
def isObjVal : Json → Bool
  | Json.obj _ => true
  | _ => false

/-- A test case, as loaded from the batch file or synthesized in remote mode:
a dict with an optional `"id"` key (line 186 uses `case.get("id", "unknown")`)
and a `"code"` entry. -/
structure Case where
  id? : Option (List Char)
  code : List Char

/-- Line 186 of the source: `case.get("id", "unknown")`. -/
def caseId (c : Case) : List Char :=
  c.id?.getD (("unknown" : String).toList)

/-- The key attached at line 201. -/
def inputIdKey : List Char := ("input_id" : String).toList

/-- Line 207 of the source: `f"debug_{input_id}.txt"`. -/
def debugFileName (id : List Char) : List Char :=
  ("debug_" : String).toList ++ id ++ (".txt" : String).toList

/-- Python dict assignment `d[k] = v` on an insertion-ordered association
list: replace in place if the key is present, else append. -/
def setKey : List (List Char × Json) → List Char → Json → List (List Char × Json)
  | [], k, v => [(k, v)]
  | (k', v') :: rest, k, v =>
    if k' = k then (k, v) :: rest else (k', v') :: setKey rest k v

/-- Python dict lookup `d[k]` as an option. -/
def getKey : List (List Char × Json) → List Char → Option Json
  | [], _ => none
  | (k', v) :: rest, k => if k' = k then some v else getKey rest k

/-- Observable outcome of a run: the in-memory `results` list, the debug
files written (in order), whether an uncaught exception aborted the loop, and
the content written to `evaluation_report.json` (if reached). -/
structure RunOutcome where
  report : List Json
  debugWrites : List (List Char × List Char)
  aborted : Bool
  reportFile : Option (List Json)

/-- The per-case loop (src/main.py 185-209) followed by the report write
(lines 215-218).  `results` and `debugs` accumulate the loop state. -/
def runCases (parse : List Char → Option Json) (respond : Case → List Char) :
    List Case → List Json → List (List Char × List Char) → RunOutcome
  | [], results, debugs =>
    { report := results, debugWrites := debugs, aborted := false,
      reportFile := some results }
  | c :: cs, results, debugs =>
    match parse (clean_llm_response (respond c)) with
    | some (Json.obj fields) =>
      runCases parse respond cs
        (results ++ [Json.obj (setKey fields inputIdKey (Json.str (caseId c)))])
        debugs
    | some _ =>
      { report := results, debugWrites := debugs, aborted := true,
        reportFile := none }
    | none =>
      runCases parse respond cs results
        (debugs ++ [(debugFileName (caseId c), clean_llm_response (respond c))])

/-- Input selection (src/main.py 147-167): remote mode carries the outcome of
`fetch_github_code` (`none` for `None`); batch mode carries the loaded cases. -/
inductive InputSource where
  | remote : Option (List Char) → InputSource
  | batch : List Case → InputSource

/-- `run_evaluation` after input selection: in remote mode, `if not code:
return` aborts with nothing written (both for `None` and for an empty
string, which is falsy); otherwise a single case with fixed id
`"github_audit"` is evaluated; in batch mode the loaded cases are
evaluated. -/
def run_evaluation_model (parse : List Char → Option Json)
    (respond : Case → List Char) : InputSource → RunOutcome
  | InputSource.remote none =>
    { report := [], debugWrites := [], aborted := false, reportFile := none }
  | InputSource.remote (some code) =>
    if code = [] then
      { report := [], debugWrites := [], aborted := false, reportFile := none }
    else
      runCases parse respond [Case.mk (some (("github_audit" : String).toList)) code] [] []
  | InputSource.batch cases => runCases parse respond cases [] []

/-- A case whose normalized response parses as a JSON object (line 200
succeeds and line 201 applies). -/
def isGoodCase (parse : List Char → Option Json) (respond : Case → List Char)
    (c : Case) : Bool :=
  match parse (clean_llm_response (respond c)) with
  | some (Json.obj _) => true
  | _ => false

/-- A case whose normalized response fails to parse (line 204 is taken). -/
def isFailCase (parse : List Char → Option Json) (respond : Case → List Char)
    (c : Case) : Bool :=
  match parse (clean_llm_response (respond c)) with
  | none => true
  | _ => false

/-- The report entry built for a successfully parsed case (lines 200-202). -/
def tagCase (parse : List Char → Option Json) (respond : Case → List Char)
    (c : Case) : Json :=
  match parse (clean_llm_response (respond c)) with
  | some (Json.obj fields) =>
    Json.obj (setKey fields inputIdKey (Json.str (caseId c)))
  | _ => Json.null

/-- The debug artifact written for a failing case (lines 206-208). -/
def debugEntry (respond : Case → List Char) (c : Case) :
    List Char × List Char :=
  (debugFileName (caseId c), clean_llm_response (respond c))

/-! ### Concrete fixtures used by witness theorems -/

/-- A toy parser: `\x7b\x7d` (the two-character text of an empty JSON
object) parses to the empty object, everything else fails to parse. -/
def parseW : List Char → Option Json :=
  fun s => if s = ("\x7b\x7d" : String).toList then some (Json.obj []) else none

/-- A toy model: echo the case's code as the response. -/
def respondW : Case → List Char := fun c => c.code

/-- A two-case batch: case `a` yields parseable output, case `b` does not. -/
def casesW : List Case :=
  [Case.mk (some (("a" : String).toList)) (("\x7b\x7d" : String).toList),
    Case.mk (some (("b" : String).toList)) (("oops" : String).toList)]

/-- A toy parser that always returns the JSON number 3 (valid JSON, not an
object). -/
def parseNumW : List Char → Option Json := fun _ => some (Json.num 3)

/-- A toy parser that always fails. -/
def parseFailW : List Char → Option Json := fun _ => none

/-- A single case with id `a`. -/
def caseAW : Case := Case.mk (some (("a" : String).toList)) (("3" : String).toList)

/-- A case with no `"id"` key. -/
def caseNoId1W : Case := Case.mk none (("x" : String).toList)

/-- Another case with no `"id"` key. -/
def caseNoId2W : Case := Case.mk none (("y" : String).toList)

/-! ### Helper lemmas on the string primitives -/

theorem pyStartsWith_ex {p s : List Char} :
    pyStartsWith p s = true ↔ ∃ u, s = p ++ u := by
  induction p generalizing s with
  | nil => simp [pyStartsWith]
  | cons x ps ih =>
    cases s with
    | nil => simp [pyStartsWith]
    | cons c cs =>
      constructor
      · intro h
        have hx : x = c ∧ pyStartsWith ps cs = true := by
          simpa [pyStartsWith, Bool.and_eq_true] using h
        obtain ⟨rfl, h2⟩ := hx
        obtain ⟨u, rfl⟩ := ih.mp h2
        exact ⟨u, rfl⟩
      · rintro ⟨u, hu⟩
        have hx : c = x ∧ cs = ps ++ u := by
          simpa using hu
        obtain ⟨rfl, rfl⟩ := hx
        simp [pyStartsWith, ih.mpr ⟨u, rfl⟩]

theorem pyStartsWith_self (p u : List Char) : pyStartsWith p (p ++ u) = true :=
  pyStartsWith_ex.mpr ⟨u, rfl⟩

theorem pyStartsWith_cons_same (p : Char) (ps cs : List Char) :
    pyStartsWith (p :: ps) (p :: cs) = pyStartsWith ps cs := by
  simp [pyStartsWith]

theorem pyStartsWith_cons_neq {p c : Char} (ps cs : List Char) (h : p ≠ c) :
    pyStartsWith (p :: ps) (c :: cs) = false := by
  simp [pyStartsWith, h]

theorem pyContains_append_of_right {n b : List Char} (a : List Char)
    (h : pyContains n b = true) : pyContains n (a ++ b) = true := by
  induction a with
  | nil => simpa using h
  | cons c a ih => simp [pyContains, ih]

theorem pyContains_self_append (n b : List Char) :
    pyContains n (n ++ b) = true := by
  cases n with
  | nil =>
    cases b with
    | nil => rfl
    | cons c cs => simp [pyContains, pyStartsWith]
  | cons c cs =>
    have h := pyStartsWith_self (c :: cs) b
    rw [List.cons_append] at h
    simp [pyContains, h]

theorem pyContains_suffix_false {n s : List Char} (h : pyContains n s = false) :
    ∀ u t, u ++ t = s → pyStartsWith n t = false := by
  induction s with
  | nil =>
    intro u t hut
    have ht : t = [] := by
      cases t with
      | nil => rfl
      | cons c cs => simp at hut
    subst ht
    cases n with
    | nil => simp [pyContains] at h
    | cons m ms => simp [pyStartsWith]
  | cons c cs ih =>
    intro u t hut
    simp only [pyContains, Bool.or_eq_false_iff] at h
    cases u with
    | nil =>
      have ht : t = c :: cs := by simpa using hut
      rw [ht]
      exact h.1
    | cons d ds =>
      have h2 : ds ++ t = cs := by
        have h3 := hut
        simp only [List.cons_append, List.cons.injEq] at h3
        exact h3.2
      exact ih h.2 ds t h2

theorem pySplitGo_cons_pos {sep : List Char} (acc : List Char) {c : Char}
    {cs : List Char} (h : pyStartsWith sep (c :: cs) = true) :
    pySplitGo sep acc 0 (c :: cs) =
      acc.reverse :: pySplitGo sep [] (sep.length - 1) cs := by
  simp [pySplitGo, h]

theorem pySplitGo_cons_neg {sep : List Char} (acc : List Char) {c : Char}
    {cs : List Char} (h : pyStartsWith sep (c :: cs) = false) :
    pySplitGo sep acc 0 (c :: cs) = pySplitGo sep (c :: acc) 0 cs := by
  simp [pySplitGo, h]

theorem pySplitGo_skip (sep acc : List Char) :
    ∀ w s, pySplitGo sep acc w.length (w ++ s) = pySplitGo sep acc 0 s := by
  intro w
  induction w with
  | nil => intro s; rfl
  | cons c w ih => intro s; simpa [pySplitGo] using ih s

theorem pySplitGo_ne_nil (sep : List Char) :
    ∀ (s acc : List Char) (k : Nat), pySplitGo sep acc k s ≠ [] := by
  intro s
  induction s with
  | nil => intro acc k; simp [pySplitGo]
  | cons c cs ih =>
    intro acc k
    cases k with
    | succ n => simpa [pySplitGo] using ih acc n
    | zero =>
      by_cases h : pyStartsWith sep (c :: cs) = true
      · simp [pySplitGo, h]
      · rw [pySplitGo_cons_neg acc (Bool.not_eq_true _ ▸ h)]
        exact ih (c :: acc) 0

theorem pySplitGo_walk {sep0 : List Char} :
    ∀ (w : List Char) (acc s : List Char), '/' ∉ w →
      pySplitGo ('/' :: sep0) acc 0 (w ++ s) =
        pySplitGo ('/' :: sep0) (w.reverse ++ acc) 0 s := by
  intro w
  induction w with
  | nil => intro acc s _; rfl
  | cons c w ih =>
    intro acc s hw
    have hc : '/' ≠ c := fun h => hw (h ▸ List.mem_cons_self c w)
    have hw' : '/' ∉ w := fun h => hw (List.mem_cons_of_mem c h)
    rw [List.cons_append, pySplitGo_cons_neg acc (pyStartsWith_cons_neq _ _ hc),
      ih (c :: acc) s hw']
    simp

theorem pySplitGo_nosplit {sep : List Char} :
    ∀ (s acc : List Char),
      (∀ u t, u ++ t = s → t ≠ [] → pyStartsWith sep t = false) →
      pySplitGo sep acc 0 s = [acc.reverse ++ s] := by
  intro s
  induction s with
  | nil => intro acc _; simp [pySplitGo]
  | cons c cs ih =>
    intro acc h
    rw [pySplitGo_cons_neg acc (h [] (c :: cs) rfl (List.cons_ne_nil c cs))]
    rw [ih (c :: acc) (fun u t hut ht => h (c :: u) t (by simpa using hut) ht)]
    simp

theorem intercalate_single (s a : List Char) : List.intercalate s [a] = a := by
  simp [List.intercalate]

theorem intercalate_cons (s a : List Char) {L : List (List Char)} (h : L ≠ []) :
    List.intercalate s (a :: L) = a ++ s ++ List.intercalate s L := by
  cases L with
  | nil => exact absurd rfl h
  | cons b L' => simp [List.intercalate, List.intersperse]

theorem intercalate_pair (s a b : List Char) :
    List.intercalate s [a, b] = a ++ s ++ b := by
  rw [intercalate_cons s a (by simp), intercalate_single]

theorem join_split_slash :
    ∀ (s acc : List Char),
      List.intercalate ['/'] (pySplitGo ['/'] acc 0 s) = acc.reverse ++ s := by
  intro s
  induction s with
  | nil => intro acc; simp [pySplitGo, intercalate_single]
  | cons c cs ih =>
    intro acc
    by_cases hc : c = '/'
    · subst hc
      rw [pySplitGo_cons_pos acc (by simp [pyStartsWith])]
      simp only [List.length_cons, List.length_nil]
      rw [intercalate_cons _ _ (pySplitGo_ne_nil _ _ _ _), ih []]
      simp
    · rw [pySplitGo_cons_neg acc (pyStartsWith_cons_neq _ _ (Ne.symm hc)), ih (c :: acc)]
      simp

theorem pySplitGo_match {sep : List Char} (hsep : sep ≠ []) (acc b : List Char) :
    pySplitGo sep acc 0 (sep ++ b) = acc.reverse :: pySplitGo sep [] 0 b := by
  cases sep with
  | nil => exact absurd rfl hsep
  | cons c cs =>
    have hstart := pyStartsWith_self (c :: cs) b
    rw [List.cons_append] at hstart
    rw [List.cons_append, pySplitGo_cons_pos acc hstart]
    simp only [List.length_cons, Nat.add_sub_cancel]
    rw [pySplitGo_skip (c :: cs) [] cs b]

/-- If a character `c` separates two `c`-free blocks on both sides of an
append equation, the blocks agree (uniqueness of the first occurrence). -/
theorem first_occ_align {c : Char} :
    ∀ (u : List Char) {v x y : List Char}, c ∉ u → c ∉ v →
      u ++ c :: x = v ++ c :: y → u = v ∧ x = y := by
  intro u
  induction u with
  | nil =>
    intro v x y _ hv h
    cases v with
    | nil =>
      refine ⟨rfl, ?_⟩
      simpa using h
    | cons d vs =>
      exfalso
      simp only [List.nil_append, List.cons_append, List.cons.injEq] at h
      obtain ⟨h1, -⟩ := h
      subst h1
      exact hv (List.mem_cons_self _ _)
  | cons e us ih =>
    intro v x y hu hv h
    cases v with
    | nil =>
      exfalso
      simp only [List.cons_append, List.nil_append, List.cons.injEq] at h
      obtain ⟨h1, -⟩ := h
      subst h1
      exact hu (List.mem_cons_self _ _)
    | cons d vs =>
      simp only [List.cons_append, List.cons.injEq] at h
      obtain ⟨rfl, h2⟩ := h
      have hu' : c ∉ us := fun hm => hu (List.mem_cons_of_mem _ hm)
      have hv' : c ∉ vs := fun hm => hv (List.mem_cons_of_mem _ hm)
      obtain ⟨rfl, rfl⟩ := ih hu' hv' h2
      exact ⟨rfl, rfl⟩

/-- `blob/` is a prefix of `w ++ "/" ++ y` (with `w` slash-free) only when
`w` is exactly `blob`. -/
theorem noBlobStart {w : List Char} (y : List Char) (hw : '/' ∉ w)
    (hne : w ≠ ("blob" : String).toList) :
    pyStartsWith (("blob/" : String).toList) (w ++ '/' :: y) = false := by
  by_contra hb
  have hb' : pyStartsWith (("blob/" : String).toList) (w ++ '/' :: y) = true := by
    simpa using hb
  obtain ⟨u, hu⟩ := pyStartsWith_ex.mp hb'
  have hbl : ("blob/" : String).toList ++ u = ("blob" : String).toList ++ '/' :: u := rfl
  rw [hbl] at hu
  have hblob : '/' ∉ ("blob" : String).toList := by decide
  exact hne (first_occ_align w hw hblob hu).1

theorem noBlobStartSlash (y : List Char) :
    pyStartsWith (("blob/" : String).toList) ('/' :: y) = false := by
  have h : ("blob/" : String).toList = 'b' :: ("lob/" : String).toList := rfl
  rw [h]
  exact pyStartsWith_cons_neq _ _ (by decide)

theorem sepB_cons : ("/blob/" : String).toList = '/' :: ("blob/" : String).toList := rfl

/-- Splitting a well-formed blob URL at `/blob/` yields exactly the repo part
and the branch-plus-path part, as the Python `url.split("/blob/")` does. -/
theorem split_blob_url (owner repo branch path : List Char)
    (how : '/' ∉ owner) (hob : owner ≠ ("blob" : String).toList)
    (hrw : '/' ∉ repo) (hrb : repo ≠ ("blob" : String).toList)
    (hbw : '/' ∉ branch)
    (hp : pyContains (("/blob/" : String).toList) ('/' :: path) = false) :
    pySplit (("/blob/" : String).toList)
        (("https://github.com/" : String).toList ++ owner ++ ("/" : String).toList ++
          repo ++ ("/blob/" : String).toList ++ branch ++ ("/" : String).toList ++ path) =
      [("https://github.com/" : String).toList ++ owner ++ ("/" : String).toList ++ repo,
        branch ++ ("/" : String).toList ++ path] := by
  have hurl : ("https://github.com/" : String).toList ++ owner ++ ("/" : String).toList ++
        repo ++ ("/blob/" : String).toList ++ branch ++ ("/" : String).toList ++ path =
      ("https:" : String).toList ++ '/' :: '/' :: (("github.com" : String).toList ++
        '/' :: (owner ++ '/' :: (repo ++ '/' :: (("blob/" : String).toList ++
          (branch ++ '/' :: path))))) := by
    have h1 : ("https://github.com/" : String).toList =
        ("https:" : String).toList ++ '/' :: '/' :: (("github.com" : String).toList ++ ['/']) := by
      decide
    have h2 : ("/blob/" : String).toList = ['/'] ++ ("blob/" : String).toList := by decide
    have h3 : ("/" : String).toList = ['/'] := rfl
    rw [h1, h2, h3]
    simp [List.append_assoc]
  have hZ : ∀ u t, u ++ t = branch ++ '/' :: path → t ≠ [] →
      pyStartsWith ('/' :: ("blob/" : String).toList) t = false := by
    intro u t hut ht
    rcases List.append_eq_append_iff.mp hut with ⟨a', ha1, ha2⟩ | ⟨c', hc1, hc2⟩
    · cases a' with
      | nil =>
        have ht' : t = '/' :: path := by simpa using ha2
        rw [ht']
        exact pyContains_suffix_false hp [] ('/' :: path) rfl
      | cons d ds =>
        have hd : d ∈ branch := by
          rw [ha1]
          exact List.mem_append_right u (List.mem_cons_self d ds)
        have hdne : '/' ≠ d := fun h => hbw (h ▸ hd)
        rw [ha2, List.cons_append]
        exact pyStartsWith_cons_neq _ _ hdne
    · cases c' with
      | nil =>
        have ht' : t = '/' :: path := by simpa using hc2.symm
        rw [ht']
        exact pyContains_suffix_false hp [] ('/' :: path) rfl
      | cons e es =>
        have h4 := hc2
        simp only [List.cons_append, List.cons.injEq] at h4
        have he : ('/' :: es) ++ t = '/' :: path := by
          rw [List.cons_append, h4.2]
        exact pyContains_suffix_false hp ('/' :: es) t he
  rw [pySplit, hurl, sepB_cons]
  rw [pySplitGo_walk (("https:" : String).toList) [] _ (by decide)]
  rw [pySplitGo_cons_neg _ (by rw [pyStartsWith_cons_same]; exact noBlobStartSlash _)]
  rw [pySplitGo_cons_neg _
    (by rw [pyStartsWith_cons_same]; exact noBlobStart _ (by decide) (by decide))]
  rw [pySplitGo_walk (("github.com" : String).toList) _ _ (by decide)]
  rw [pySplitGo_cons_neg _ (by rw [pyStartsWith_cons_same]; exact noBlobStart _ how hob)]
  rw [pySplitGo_walk owner _ _ how]
  rw [pySplitGo_cons_neg _ (by rw [pyStartsWith_cons_same]; exact noBlobStart _ hrw hrb)]
  rw [pySplitGo_walk repo _ _ hrw]
  rw [pySplitGo_cons_pos _ (by rw [pyStartsWith_cons_same]; exact pyStartsWith_self _ _)]
  simp only [List.length_cons, Nat.add_sub_cancel]
  rw [pySplitGo_skip _ [] (("blob/" : String).toList) _]
  rw [pySplitGo_nosplit _ [] hZ]
  simp [List.append_assoc]

/-- `base.replace("https://github.com/", "")` on the repo part of a blob URL
leaves exactly `owner/repo`: the prefix occurrence is removed and no other
occurrence exists (a slash-count argument: the pattern has three slashes,
`owner/repo` only one). -/
theorem replace_gh (owner repo : List Char) (how : '/' ∉ owner) (hrw : '/' ∉ repo) :
    pyReplace (("https://github.com/" : String).toList) []
        (("https://github.com/" : String).toList ++ owner ++ ("/" : String).toList ++ repo) =
      owner ++ '/' :: repo := by
  have harg : ("https://github.com/" : String).toList ++ owner ++ ("/" : String).toList ++ repo
      = ("https://github.com/" : String).toList ++ (owner ++ '/' :: repo) := by
    have h3 : ("/" : String).toList = ['/'] := rfl
    rw [h3]
    simp [List.append_assoc]
  have hnos : ∀ u t, u ++ t = owner ++ '/' :: repo → t ≠ [] →
      pyStartsWith (("https://github.com/" : String).toList) t = false := by
    intro u t hut ht
    by_contra hb
    have hb' : pyStartsWith (("https://github.com/" : String).toList) t = true := by
      simpa using hb
    obtain ⟨v, rfl⟩ := pyStartsWith_ex.mp hb'
    have hcount := congrArg (List.count '/') hut
    simp only [List.count_append, List.count_cons_self] at hcount
    have ho : List.count '/' owner = 0 := List.count_eq_zero.mpr how
    have hr : List.count '/' repo = 0 := List.count_eq_zero.mpr hrw
    have hgh : List.count '/' (("https://github.com/" : String).toList) = 3 := by decide
    rw [ho, hr, hgh] at hcount
    omega
  rw [pyReplace, pySplit, harg, pySplitGo_match (by decide) [] _]
  rw [pySplitGo_nosplit _ [] hnos]
  rw [intercalate_pair]
  simp

/-- Splitting a slash-free list on `/` returns it whole. -/
theorem splitGo_slash_nosplit {x : List Char} (hx : '/' ∉ x) :
    pySplitGo ['/'] [] 0 x = [x] := by
  have hc : ∀ u t, u ++ t = x → t ≠ [] → pyStartsWith ['/'] t = false := by
    intro u t hut ht
    cases t with
    | nil => exact absurd rfl ht
    | cons d ds =>
      have hd : d ∈ x := hut ▸ List.mem_append_right u (List.mem_cons_self d ds)
      exact pyStartsWith_cons_neq _ _ (fun h => hx (h ▸ hd))
  rw [pySplitGo_nosplit _ [] hc]
  simp

/-- Python `(x ++ "/" ++ y).split("/")` with `x` slash-free: the head segment
is `x`. -/
theorem split_slash_head {x : List Char} (hx : '/' ∉ x) (y : List Char) :
    pySplit ['/'] (x ++ '/' :: y) = x :: pySplitGo ['/'] [] 0 y := by
  rw [pySplit, pySplitGo_walk x [] ('/' :: y) hx]
  rw [pySplitGo_cons_pos _ (by simp [pyStartsWith])]
  simp

/-- Claim C3: for every valid blob URL of the form
`https://github.com/<owner>/<repo>/blob/<branch>/<path...>` (owner, repo and
branch are single path components, so slash-free; neither owner nor repo is
the literal `blob` and the branch-plus-path tail contains no further
`/blob/`, which is what the URL containing the `/blob/` marker exactly once
means), the Resolver extracts `owner`, `repo`, `branch` and the full
remaining path (which may itself contain slashes), and the constructed
content request targets `contents/<path>` with `ref` equal to `<branch>`. -/
theorem C3_blob_url_resolution (owner repo branch path : List Char)
    (how : '/' ∉ owner) (hob : owner ≠ ("blob" : String).toList)
    (hrw : '/' ∉ repo) (hrb : repo ≠ ("blob" : String).toList)
    (hbw : '/' ∉ branch)
    (hp : pyContains (("/blob/" : String).toList) ('/' :: path) = false) :
    fetch_github_code_resolve
        (("https://github.com/" : String).toList ++ owner ++ ("/" : String).toList ++
          repo ++ ("/blob/" : String).toList ++ branch ++ ("/" : String).toList ++ path) =
      some { owner := owner, repo := repo, branch := branch, path := path } ∧
    api_url { owner := owner, repo := repo, branch := branch, path := path } =
      ("https://api.github.com/repos/" : String).toList ++ owner ++
        ("/" : String).toList ++ repo ++ ("/contents/" : String).toList ++ path ++
        ("?ref=" : String).toList ++ branch := by
  refine ⟨?_, rfl⟩
  have hg1 : pyContains (("github.com" : String).toList)
      (("https://github.com/" : String).toList ++ owner ++ ("/" : String).toList ++
        repo ++ ("/blob/" : String).toList ++ branch ++ ("/" : String).toList ++ path) = true := by
    have h1 : ("https://github.com/" : String).toList ++ owner ++ ("/" : String).toList ++
        repo ++ ("/blob/" : String).toList ++ branch ++ ("/" : String).toList ++ path =
        ("https://" : String).toList ++ (("github.com" : String).toList ++
          (("/" : String).toList ++ owner ++ ("/" : String).toList ++ repo ++
            ("/blob/" : String).toList ++ branch ++ ("/" : String).toList ++ path)) := by
      have hd : ("https://github.com/" : String).toList =
          ("https://" : String).toList ++ ("github.com" : String).toList ++
            ("/" : String).toList := by decide
      rw [hd]
      simp [List.append_assoc]
    rw [h1]
    exact pyContains_append_of_right _ (pyContains_self_append _ _)
  have hg2 : pyContains (("/blob/" : String).toList)
      (("https://github.com/" : String).toList ++ owner ++ ("/" : String).toList ++
        repo ++ ("/blob/" : String).toList ++ branch ++ ("/" : String).toList ++ path) = true := by
    have h2 : ("https://github.com/" : String).toList ++ owner ++ ("/" : String).toList ++
        repo ++ ("/blob/" : String).toList ++ branch ++ ("/" : String).toList ++ path =
        (("https://github.com/" : String).toList ++ owner ++ ("/" : String).toList ++ repo) ++
          (("/blob/" : String).toList ++ (branch ++ ("/" : String).toList ++ path)) := by
      simp [List.append_assoc]
    rw [h2]
    exact pyContains_append_of_right _ (pyContains_self_append _ _)
  unfold fetch_github_code_resolve
  rw [hg1, hg2]
  simp only [Bool.not_true, Bool.or_self, Bool.false_eq_true, if_false]
  rw [split_blob_url owner repo branch path how hob hrw hrb hbw hp]
  simp only []
  rw [replace_gh owner repo how hrw]
  have hsl : ("/" : String).toList = ['/'] := rfl
  rw [hsl]
  rw [split_slash_head how repo, splitGo_slash_nosplit hrw]
  simp only [List.take]
  have hbp : branch ++ ['/'] ++ path = branch ++ '/' :: path := by
    simp [List.append_assoc]
  rw [hbp, split_slash_head hbw path]
  simp only []
  rw [join_split_slash path []]
  simp

/-- Claim C3 witness at a concrete URL. -/
theorem C3_witness :
    fetch_github_code_resolve
        (("https://github.com/" : String).toList ++ ("user" : String).toList ++
          ("/" : String).toList ++ ("repo" : String).toList ++
          ("/blob/" : String).toList ++ ("main" : String).toList ++
          ("/" : String).toList ++ ("src/f.py" : String).toList) =
      some { owner := ("user" : String).toList, repo := ("repo" : String).toList,
             branch := ("main" : String).toList, path := ("src/f.py" : String).toList } ∧
    api_url { owner := ("user" : String).toList, repo := ("repo" : String).toList,
              branch := ("main" : String).toList, path := ("src/f.py" : String).toList } =
      ("https://api.github.com/repos/" : String).toList ++ ("user" : String).toList ++
        ("/" : String).toList ++ ("repo" : String).toList ++
        ("/contents/" : String).toList ++ ("src/f.py" : String).toList ++
        ("?ref=" : String).toList ++ ("main" : String).toList :=
  C3_blob_url_resolution _ _ _ _ (by decide) (by decide) (by decide) (by decide)
    (by decide) (by decide)

/-- Claim C5: for every input string that lacks the `/blob/` path segment or
lacks the host marker `github.com`, the URL Resolver signals invalid input by
returning `none` (the source returns `None`; it never lets an exception
escape, since the validation happens before the `try` block and everything
inside is covered by the blanket `except`, modelled by the total function
`fetch_github_code_resolve`). -/
theorem C5_invalid_url_returns_none (url : List Char)
    (h : pyContains (("/blob/" : String).toList) url = false ∨
      pyContains (("github.com" : String).toList) url = false) :
    fetch_github_code_resolve url = none := by
  unfold fetch_github_code_resolve
  rcases h with h | h
  · have h' : pyContains ['/', 'b', 'l', 'o', 'b', '/'] url = false := h
    simp [h']
  · have h' : pyContains ['g', 'i', 't', 'h', 'u', 'b', '.', 'c', 'o', 'm'] url = false := h
    simp [h']

/-- Claim C5 witness at a concrete invalid URL. -/
theorem C5_witness :
    fetch_github_code_resolve (("https://example.com/u/r/tree/main/f.py" : String).toList) =
      none :=
  C5_invalid_url_returns_none _ (Or.inr (by decide))

/-! ### Lemmas about the Response Normalizer -/

theorem dropWhile_dropWhile (p : Char → Bool) (l : List Char) :
    (l.dropWhile p).dropWhile p = l.dropWhile p := by
  induction l with
  | nil => rfl
  | cons c cs ih =>
    by_cases hc : p c = true
    · simp [List.dropWhile_cons, hc, ih]
    · have hc' : p c = false := by simpa using hc
      simp [List.dropWhile_cons, hc']

theorem dropWhile_head_false {p : Char → Bool} :
    ∀ {l t : List Char} {c : Char}, l.dropWhile p = c :: t → p c = false := by
  intro l
  induction l with
  | nil => intro t c h; simp [List.dropWhile] at h
  | cons d ds ih =>
    intro t c h
    by_cases hd : p d = true
    · rw [List.dropWhile_cons, if_pos hd] at h
      exact ih h
    · have hd' : p d = false := by simpa using hd
      rw [List.dropWhile_cons, if_neg (by simp [hd'])] at h
      injection h with h1 h2
      subst h1
      exact hd'

theorem dropWhile_append_singleton {p : Char → Bool} {y : Char} (hy : p y = false) :
    ∀ w : List Char, ∃ w', (w ++ [y]).dropWhile p = w' ++ [y] := by
  intro w
  induction w with
  | nil => exact ⟨[], by simp [List.dropWhile_cons, hy]⟩
  | cons c cs ih =>
    by_cases hc : p c = true
    · obtain ⟨w', hw'⟩ := ih
      exact ⟨w', by simp [List.dropWhile_cons, hc, hw']⟩
    · exact ⟨c :: cs, by simp [List.dropWhile_cons, hc]⟩

/-- Python `strip` is idempotent. -/
theorem pyStrip_idem (s : List Char) : pyStrip (pyStrip s) = pyStrip s := by
  cases hA : s.dropWhile isPySpace with
  | nil =>
    have hps : pyStrip s = [] := by
      rw [pyStrip, hA]
      simp
    rw [hps]
    rfl
  | cons y ys =>
    have hy : isPySpace y = false := dropWhile_head_false hA
    obtain ⟨w', hw'⟩ := dropWhile_append_singleton hy ys.reverse
    have hps : pyStrip s = y :: w'.reverse := by
      rw [pyStrip, hA, List.reverse_cons, hw', List.reverse_append]
      simp
    rw [hps, pyStrip]
    rw [List.dropWhile_cons, if_neg (by simp [hy])]
    rw [List.reverse_cons, List.reverse_reverse]
    rw [← hw', dropWhile_dropWhile, hw']
    rw [List.reverse_append]
    simp

/-- Every output of the Normalizer is the result of a final `strip`. -/
theorem clean_is_stripped (raw : List Char) :
    ∃ u, clean_llm_response raw = pyStrip u := by
  rw [clean_llm_response, stripJsonTag]
  by_cases hj :
      pyStartsWith jsonTok ((stripFence (pyStrip raw)).map Char.toLower) = true
  · rw [if_pos hj]
    exact ⟨_, rfl⟩
  · rw [if_neg (by simpa using hj), stripFence]
    by_cases hf : (pyStartsWith fenceTok (pyStrip raw) &&
        pyEndsWith fenceTok (pyStrip raw)) = true
    · rw [if_pos hf]
      exact ⟨_, rfl⟩
    · rw [if_neg (by simpa using hf)]
      exact ⟨raw, rfl⟩

theorem pyStrip_clean (raw : List Char) :
    pyStrip (clean_llm_response raw) = clean_llm_response raw := by
  obtain ⟨u, hu⟩ := clean_is_stripped raw
  rw [hu, pyStrip_idem]

/-- A list whose characters contain no line boundary splits into a single
line. -/
theorem pySplitlines_single {t : List Char} (hnl : ∀ c ∈ t, isLineBreak c = false)
    (hne : t ≠ []) : pySplitlines t = [t] := by
  induction t with
  | nil => exact absurd rfl hne
  | cons c cs ih =>
    have hc : isLineBreak c = false := hnl c (List.mem_cons_self c cs)
    have hcs : ∀ x ∈ cs, isLineBreak x = false :=
      fun x hx => hnl x (List.mem_cons_of_mem c hx)
    have hcr : c ≠ '\r' := by
      intro h
      rw [h] at hc
      exact absurd hc (by decide)
    cases cs with
    | nil => simp [pySplitlines, hc]
    | cons d ds =>
      rw [pySplitlines]
      rw [if_neg (fun h => hcr h.1), if_neg (by simp [hc])]
      rw [ih hcs (List.cons_ne_nil d ds)]

/-! ### Claims about the Response Normalizer -/

/-- Claim C2 counterexample: the Normalizer is not idempotent as stated; on
the input `jsonjson` one application yields `json` and a second application
yields the empty string. -/
theorem C2_counterexample :
    clean_llm_response (clean_llm_response (("jsonjson" : String).toList)) ≠
      clean_llm_response (("jsonjson" : String).toList) := by decide

/-- Claim C2 (amended): the Normalizer is idempotent on every input whose
once-normalized output does not itself both start and end with the
triple-backtick fence and does not start (case-insensitively) with the
literal token `json` — the two stripping branches that a second application
could still fire. -/
theorem C2_amended_idempotent (s : List Char)
    (hf : (pyStartsWith fenceTok (clean_llm_response s) &&
      pyEndsWith fenceTok (clean_llm_response s)) = false)
    (hj : pyStartsWith jsonTok ((clean_llm_response s).map Char.toLower) = false) :
    clean_llm_response (clean_llm_response s) = clean_llm_response s := by
  conv_lhs => rw [clean_llm_response]
  rw [pyStrip_clean]
  rw [stripFence, if_neg (by simp [hf])]
  rw [stripJsonTag, if_neg (by simp [hj])]

/-- Claim C2 (amended) witness: a plain JSON object text is a fixed point. -/
theorem C2_witness :
    ((pyStartsWith fenceTok
        (clean_llm_response (("\x7b\"score\": 5\x7d" : String).toList)) &&
      pyEndsWith fenceTok
        (clean_llm_response (("\x7b\"score\": 5\x7d" : String).toList))) = false) ∧
    pyStartsWith jsonTok
      ((clean_llm_response (("\x7b\"score\": 5\x7d" : String).toList)).map
        Char.toLower) = false ∧
    clean_llm_response
        (clean_llm_response (("\x7b\"score\": 5\x7d" : String).toList)) =
      clean_llm_response (("\x7b\"score\": 5\x7d" : String).toList) :=
  ⟨by decide, by decide, C2_amended_idempotent _ (by decide) (by decide)⟩

/-- Claim C6: on the input `` ```json\n{"a":1}\n``` `` (a fenced json block
containing the object text) the Normalizer returns exactly `{"a":1}`. -/
theorem C6_fenced_json_block :
    clean_llm_response (("```json\n\x7b\"a\":1\x7d\n```" : String).toList) =
      ("\x7b\"a\":1\x7d" : String).toList := by decide

/-- Claim C7: for every single-line input (no line-boundary characters in its
trimmed form) whose trimmed form both starts and ends with a triple-backtick
fence, the Normalizer returns the empty string: the generic start/end check
drops the only line. -/
theorem C7_single_line_fence_empty (s : List Char)
    (hone : ∀ c ∈ pyStrip s, isLineBreak c = false)
    (hstart : pyStartsWith fenceTok (pyStrip s) = true)
    (hend : pyEndsWith fenceTok (pyStrip s) = true) :
    clean_llm_response s = [] := by
  have hne : pyStrip s ≠ [] := by
    obtain ⟨u, hu⟩ := pyStartsWith_ex.mp hstart
    rw [hu]
    simp [fenceTok]
  rw [clean_llm_response, stripFence, if_pos (by simp [hstart, hend])]
  rw [pySplitlines_single hone hne]
  have hred : (List.drop 1 [pyStrip s]).dropLast = ([] : List (List Char)) := by simp
  rw [hred]
  decide

/-- Claim C7 witness: a one-line fenced block normalizes to the empty
string. -/
theorem C7_witness :
    (∀ c ∈ pyStrip (("```x```" : String).toList), isLineBreak c = false) ∧
    pyStartsWith fenceTok (pyStrip (("```x```" : String).toList)) = true ∧
    pyEndsWith fenceTok (pyStrip (("```x```" : String).toList)) = true ∧
    clean_llm_response (("```x```" : String).toList) = [] :=
  ⟨by decide, by decide, by decide,
    C7_single_line_fence_empty _ (by decide) (by decide) (by decide)⟩

/-! ### Lemmas about the evaluation loop -/

theorem tagCase_eq {parse : List Char → Option Json} {respond : Case → List Char}
    {c : Case} {fields : List (List Char × Json)}
    (hp : parse (clean_llm_response (respond c)) = some (Json.obj fields)) :
    tagCase parse respond c =
      Json.obj (setKey fields inputIdKey (Json.str (caseId c))) := by
  simp [tagCase, hp]

theorem runCases_cons_obj {parse : List Char → Option Json}
    {respond : Case → List Char} {c : Case} {fields : List (List Char × Json)}
    (cs : List Case) (results : List Json) (debugs : List (List Char × List Char))
    (hp : parse (clean_llm_response (respond c)) = some (Json.obj fields)) :
    runCases parse respond (c :: cs) results debugs =
      runCases parse respond cs (results ++ [tagCase parse respond c]) debugs := by
  rw [tagCase_eq hp]
  simp [runCases, hp]

theorem runCases_cons_none {parse : List Char → Option Json}
    {respond : Case → List Char} {c : Case}
    (cs : List Case) (results : List Json) (debugs : List (List Char × List Char))
    (hp : parse (clean_llm_response (respond c)) = none) :
    runCases parse respond (c :: cs) results debugs =
      runCases parse respond cs results (debugs ++ [debugEntry respond c]) := by
  simp [runCases, debugEntry, hp]

theorem runCases_cons_crash {parse : List Char → Option Json}
    {respond : Case → List Char} {c : Case} {j : Json}
    (cs : List Case) (results : List Json) (debugs : List (List Char × List Char))
    (hp : parse (clean_llm_response (respond c)) = some j) (hj : isObjVal j = false) :
    runCases parse respond (c :: cs) results debugs =
      { report := results, debugWrites := debugs, aborted := true,
        reportFile := none } := by
  cases j with
  | obj fields => simp [isObjVal] at hj
  | null => simp [runCases, hp]
  | bool b => simp [runCases, hp]
  | num n => simp [runCases, hp]
  | str s => simp [runCases, hp]
  | arr a => simp [runCases, hp]

theorem good_exists {parse : List Char → Option Json} {respond : Case → List Char}
    {c : Case} (h : isGoodCase parse respond c = true) :
    ∃ fields, parse (clean_llm_response (respond c)) = some (Json.obj fields) := by
  cases hp : parse (clean_llm_response (respond c)) with
  | none => rw [isGoodCase, hp] at h; simp at h
  | some j =>
    cases j with
    | obj fields => exact ⟨fields, rfl⟩
    | null => rw [isGoodCase, hp] at h; simp at h
    | bool b => rw [isGoodCase, hp] at h; simp at h
    | num n => rw [isGoodCase, hp] at h; simp at h
    | str s => rw [isGoodCase, hp] at h; simp at h
    | arr a => rw [isGoodCase, hp] at h; simp at h

theorem fail_parse {parse : List Char → Option Json} {respond : Case → List Char}
    {c : Case} (h : isFailCase parse respond c = true) :
    parse (clean_llm_response (respond c)) = none := by
  cases hp : parse (clean_llm_response (respond c)) with
  | none => rfl
  | some j => rw [isFailCase, hp] at h; simp at h

theorem good_not_fail {parse : List Char → Option Json} {respond : Case → List Char}
    {c : Case} (h : isGoodCase parse respond c = true) :
    isFailCase parse respond c = false := by
  obtain ⟨fields, hp⟩ := good_exists h
  simp [isFailCase, hp]

theorem fail_not_good {parse : List Char → Option Json} {respond : Case → List Char}
    {c : Case} (h : isFailCase parse respond c = true) :
    isGoodCase parse respond c = false := by
  simp [isGoodCase, fail_parse h]

/-- The loop specification: when every case either parses to an object or
fails to parse, the loop completes, appending the tagged entry of each good
case (in input order) and the debug artifact of each failing case (in input
order), and the report file is written with exactly the collected results. -/
theorem runCases_ok (parse : List Char → Option Json) (respond : Case → List Char) :
    ∀ (cases : List Case) (results : List Json)
      (debugs : List (List Char × List Char)),
      (∀ c ∈ cases,
        isGoodCase parse respond c = true ∨ isFailCase parse respond c = true) →
      runCases parse respond cases results debugs =
        { report := results ++
            (cases.filter (isGoodCase parse respond)).map (tagCase parse respond),
          debugWrites := debugs ++
            (cases.filter (isFailCase parse respond)).map (debugEntry respond),
          aborted := false,
          reportFile := some (results ++
            (cases.filter (isGoodCase parse respond)).map (tagCase parse respond)) } := by
  intro cases
  induction cases with
  | nil =>
    intro results debugs _
    simp [runCases]
  | cons c cs ih =>
    intro results debugs h
    have hc := h c (List.mem_cons_self c cs)
    have hrest : ∀ x ∈ cs,
        isGoodCase parse respond x = true ∨ isFailCase parse respond x = true :=
      fun x hx => h x (List.mem_cons_of_mem c hx)
    rcases hc with hg | hf
    · obtain ⟨fields, hp⟩ := good_exists hg
      rw [runCases_cons_obj cs results debugs hp, ih _ _ hrest]
      simp [hg, good_not_fail hg, List.filter_cons, List.append_assoc]
    · rw [runCases_cons_none cs results debugs (fail_parse hf), ih _ _ hrest]
      simp [hf, fail_not_good hf, List.filter_cons, List.append_assoc]

/-- The loop aborted by a parsed-but-non-object response: the prefix before
the offending case is processed normally, the offending case contributes
neither a report entry nor a debug artifact, the rest of the batch is never
processed, and the report file is never written. -/
theorem runCases_crash (parse : List Char → Option Json) (respond : Case → List Char)
    {c : Case} {j : Json}
    (hj : parse (clean_llm_response (respond c)) = some j) (hobj : isObjVal j = false) :
    ∀ (pre : List Case) (post : List Case) (results : List Json)
      (debugs : List (List Char × List Char)),
      (∀ x ∈ pre,
        isGoodCase parse respond x = true ∨ isFailCase parse respond x = true) →
      runCases parse respond (pre ++ c :: post) results debugs =
        { report := results ++
            (pre.filter (isGoodCase parse respond)).map (tagCase parse respond),
          debugWrites := debugs ++
            (pre.filter (isFailCase parse respond)).map (debugEntry respond),
          aborted := true,
          reportFile := none } := by
  intro pre
  induction pre with
  | nil =>
    intro post results debugs _
    rw [List.nil_append, runCases_cons_crash post results debugs hj hobj]
    simp
  | cons x xs ih =>
    intro post results debugs h
    have hx := h x (List.mem_cons_self x xs)
    have hrest : ∀ y ∈ xs,
        isGoodCase parse respond y = true ∨ isFailCase parse respond y = true :=
      fun y hy => h y (List.mem_cons_of_mem x hy)
    rcases hx with hg | hf
    · obtain ⟨fields, hp⟩ := good_exists hg
      rw [List.cons_append, runCases_cons_obj _ _ _ hp, ih _ _ _ hrest]
      simp [hg, good_not_fail hg, List.filter_cons, List.append_assoc]
    · rw [List.cons_append, runCases_cons_none _ _ _ (fail_parse hf), ih _ _ _ hrest]
      simp [hf, fail_not_good hf, List.filter_cons, List.append_assoc]

theorem good_fail_partition (parse : List Char → Option Json)
    (respond : Case → List Char) :
    ∀ cases : List Case,
      (∀ c ∈ cases,
        isGoodCase parse respond c = true ∨ isFailCase parse respond c = true) →
      (cases.filter (isGoodCase parse respond)).length +
        (cases.filter (isFailCase parse respond)).length = cases.length := by
  intro cases
  induction cases with
  | nil => intro _; simp
  | cons c cs ih =>
    intro h
    have hc := h c (List.mem_cons_self c cs)
    have hrest : ∀ x ∈ cs,
        isGoodCase parse respond x = true ∨ isFailCase parse respond x = true :=
      fun x hx => h x (List.mem_cons_of_mem c hx)
    rcases hc with hg | hf
    · have hsum := ih hrest
      simp [List.filter_cons, hg, good_not_fail hg]
      omega
    · have hsum := ih hrest
      simp [List.filter_cons, hf, fail_not_good hf]
      omega

theorem getKey_setKey (fields : List (List Char × Json)) (k : List Char) (v : Json) :
    getKey (setKey fields k v) k = some v := by
  induction fields with
  | nil => simp [setKey, getKey]
  | cons p rest ih =>
    obtain ⟨k', v'⟩ := p
    by_cases hk : k' = k
    · simp [setKey, getKey, hk]
    · simp [setKey, getKey, hk, ih]

theorem debugFileName_inj : Function.Injective debugFileName := by
  intro a b h
  unfold debugFileName at h
  exact List.append_cancel_left (List.append_cancel_right h)

/-! ### Claims about the Evaluation Orchestrator -/

/-- Claim C1: for every batch run of `N` cases where `M` of the model
responses normalize to valid JSON (objects — the only successful-parse shape
the loop survives, see C9) and `N − M` do not, the in-memory report appended
by the per-case loop contains exactly `M` entries, each augmented with the
`input_id` of its case, and exactly `N − M` debug files exist afterwards
(their names pairwise distinct given pairwise distinct failing ids), one per
failing case, named `debug_<id>.txt` after that case's id and containing the
cleaned (unparsed) text. -/
theorem C1_batch_report_and_debug_files (parse : List Char → Option Json)
    (respond : Case → List Char) (cases : List Case)
    (h : ∀ c ∈ cases,
      isGoodCase parse respond c = true ∨ isFailCase parse respond c = true)
    (hids : ((cases.filter (isFailCase parse respond)).map caseId).Nodup) :
    (run_evaluation_model parse respond (InputSource.batch cases)).report =
      (cases.filter (isGoodCase parse respond)).map (tagCase parse respond) ∧
    (run_evaluation_model parse respond (InputSource.batch cases)).report.length =
      (cases.filter (isGoodCase parse respond)).length ∧
    (∀ c ∈ cases.filter (isGoodCase parse respond),
      ∃ fields, tagCase parse respond c = Json.obj fields ∧
        getKey fields inputIdKey = some (Json.str (caseId c))) ∧
    (run_evaluation_model parse respond (InputSource.batch cases)).debugWrites =
      (cases.filter (isFailCase parse respond)).map (debugEntry respond) ∧
    (run_evaluation_model parse respond (InputSource.batch cases)).debugWrites.length =
      cases.length - (cases.filter (isGoodCase parse respond)).length ∧
    ((run_evaluation_model parse respond
      (InputSource.batch cases)).debugWrites.map Prod.fst).Nodup := by
  have hrun : run_evaluation_model parse respond (InputSource.batch cases) =
      runCases parse respond cases [] [] := rfl
  have hsum := good_fail_partition parse respond cases h
  rw [hrun, runCases_ok parse respond cases [] [] h]
  refine ⟨by simp, by simp, ?_, by simp, ?_, ?_⟩
  · intro c hcmem
    have hg : isGoodCase parse respond c = true := (List.mem_filter.mp hcmem).2
    obtain ⟨fields, hp⟩ := good_exists hg
    exact ⟨setKey fields inputIdKey (Json.str (caseId c)), tagCase_eq hp,
      getKey_setKey fields inputIdKey (Json.str (caseId c))⟩
  · simp only [List.nil_append, List.length_map]
    omega
  · show (((cases.filter (isFailCase parse respond)).map (debugEntry respond)).map
      Prod.fst).Nodup
    have hmap : ((cases.filter (isFailCase parse respond)).map
        (debugEntry respond)).map Prod.fst =
        ((cases.filter (isFailCase parse respond)).map caseId).map debugFileName := by
      simp only [List.map_map]
      rfl
    rw [hmap]
    exact List.Nodup.map debugFileName_inj hids

/-- Claim C1 witness: a concrete two-case batch, with one parseable and one
unparseable response. -/
theorem C1_witness :
    ((∀ c ∈ casesW, isGoodCase parseW respondW c = true ∨
      isFailCase parseW respondW c = true) ∧
    ((casesW.filter (isFailCase parseW respondW)).map caseId).Nodup) ∧
    ((run_evaluation_model parseW respondW (InputSource.batch casesW)).report =
      (casesW.filter (isGoodCase parseW respondW)).map (tagCase parseW respondW) ∧
    (run_evaluation_model parseW respondW (InputSource.batch casesW)).report.length =
      (casesW.filter (isGoodCase parseW respondW)).length ∧
    (∀ c ∈ casesW.filter (isGoodCase parseW respondW),
      ∃ fields, tagCase parseW respondW c = Json.obj fields ∧
        getKey fields inputIdKey = some (Json.str (caseId c))) ∧
    (run_evaluation_model parseW respondW (InputSource.batch casesW)).debugWrites =
      (casesW.filter (isFailCase parseW respondW)).map (debugEntry respondW) ∧
    (run_evaluation_model parseW respondW (InputSource.batch casesW)).debugWrites.length =
      casesW.length - (casesW.filter (isGoodCase parseW respondW)).length ∧
    ((run_evaluation_model parseW respondW
      (InputSource.batch casesW)).debugWrites.map Prod.fst).Nodup) :=
  ⟨⟨by decide, by decide⟩,
    C1_batch_report_and_debug_files parseW respondW casesW (by decide) (by decide)⟩

/-- Claim C4: in remote mode a fetch failure (`None`, or content that is
falsy in `if not code`) returns with zero report entries and no report file
write; in batch mode the report file is written at the end of the run with
exactly the collected results, even when empty or when cases failed to parse
(the run must reach the write: a parsed non-object response aborts it first,
see C9). -/
theorem C4_remote_abort_batch_write (parse : List Char → Option Json)
    (respond : Case → List Char) :
    (∀ fetched : Option (List Char), (fetched = none ∨ fetched = some []) →
      run_evaluation_model parse respond (InputSource.remote fetched) =
        { report := [], debugWrites := [], aborted := false, reportFile := none }) ∧
    (∀ cases : List Case,
      (∀ c ∈ cases,
        isGoodCase parse respond c = true ∨ isFailCase parse respond c = true) →
      (run_evaluation_model parse respond (InputSource.batch cases)).reportFile =
        some ((run_evaluation_model parse respond (InputSource.batch cases)).report)) := by
  constructor
  · rintro fetched (rfl | rfl)
    · rfl
    · simp [run_evaluation_model]
  · intro cases h
    have hrun : run_evaluation_model parse respond (InputSource.batch cases) =
        runCases parse respond cases [] [] := rfl
    rw [hrun, runCases_ok parse respond cases [] [] h]

/-- Claim C4 witness: fetch failure writes nothing; a concrete batch with a
failing case still gets its report file. -/
theorem C4_witness :
    run_evaluation_model parseW respondW (InputSource.remote none) =
      { report := [], debugWrites := [], aborted := false, reportFile := none } ∧
    (run_evaluation_model parseW respondW (InputSource.batch casesW)).reportFile =
      some ((run_evaluation_model parseW respondW (InputSource.batch casesW)).report) :=
  ⟨(C4_remote_abort_batch_write parseW respondW).1 none (Or.inl rfl),
    (C4_remote_abort_batch_write parseW respondW).2 casesW (by decide)⟩

/-- Claim C8: the order of entries in the final report equals the order in
which the input cases were loaded: the per-case loop is strictly sequential
and appends each successful result in input order (the embedding is a
sequential fold, so response latency does not exist as a notion and cannot
reorder entries). -/
theorem C8_report_order_preserved (parse : List Char → Option Json)
    (respond : Case → List Char) (cases : List Case)
    (h : ∀ c ∈ cases,
      isGoodCase parse respond c = true ∨ isFailCase parse respond c = true) :
    (run_evaluation_model parse respond (InputSource.batch cases)).report =
      (cases.filter (isGoodCase parse respond)).map (tagCase parse respond) := by
  have hrun : run_evaluation_model parse respond (InputSource.batch cases) =
      runCases parse respond cases [] [] := rfl
  rw [hrun, runCases_ok parse respond cases [] [] h]
  simp

/-- Claim C8 witness at a concrete batch. -/
theorem C8_witness :
    (run_evaluation_model parseW respondW (InputSource.batch casesW)).report =
      (casesW.filter (isGoodCase parseW respondW)).map (tagCase parseW respondW) :=
  C8_report_order_preserved parseW respondW casesW (by decide)

/-- Claim C9: if a model response normalizes to text that parses as valid
JSON but is not a JSON object, attaching `input_id` raises an uncaught
`TypeError`: the run aborts at that case, no debug artifact is written for
it, the remaining cases are never processed, and no report file is
written. -/
theorem C9_non_object_json_aborts (parse : List Char → Option Json)
    (respond : Case → List Char) (pre : List Case) (c : Case) (post : List Case)
    (j : Json)
    (hpre : ∀ x ∈ pre,
      isGoodCase parse respond x = true ∨ isFailCase parse respond x = true)
    (hj : parse (clean_llm_response (respond c)) = some j)
    (hobj : isObjVal j = false) :
    run_evaluation_model parse respond (InputSource.batch (pre ++ c :: post)) =
      { report := (pre.filter (isGoodCase parse respond)).map (tagCase parse respond),
        debugWrites := (pre.filter (isFailCase parse respond)).map (debugEntry respond),
        aborted := true,
        reportFile := none } := by
  have hrun : run_evaluation_model parse respond (InputSource.batch (pre ++ c :: post)) =
      runCases parse respond (pre ++ c :: post) [] [] := rfl
  rw [hrun, runCases_crash parse respond hj hobj pre post [] [] hpre]
  simp

/-- Claim C9 witness: a single case whose response parses to the JSON number
3 aborts the run with nothing written. -/
theorem C9_witness :
    run_evaluation_model parseNumW respondW (InputSource.batch [caseAW]) =
      { report := [], debugWrites := [], aborted := true, reportFile := none } :=
  C9_non_object_json_aborts parseNumW respondW [] caseAW [] (Json.num 3)
    (by simp) rfl rfl

/-- Claim C10: a batch case lacking an `"id"` key gets the literal id
`unknown` as `input_id` rather than failing the run; two such failing cases
produce debug writes to the same file name `debug_unknown.txt`. -/
theorem C10_missing_id_tagged_unknown (parse : List Char → Option Json)
    (respond : Case → List Char) (c1 c2 : Case)
    (h1 : c1.id? = none) (h2 : c2.id? = none)
    (hf1 : parse (clean_llm_response (respond c1)) = none)
    (hf2 : parse (clean_llm_response (respond c2)) = none) :
    caseId c1 = ("unknown" : String).toList ∧
    caseId c2 = ("unknown" : String).toList ∧
    run_evaluation_model parse respond (InputSource.batch [c1, c2]) =
      { report := [],
        debugWrites :=
          [(debugFileName (("unknown" : String).toList),
            clean_llm_response (respond c1)),
            (debugFileName (("unknown" : String).toList),
              clean_llm_response (respond c2))],
        aborted := false,
        reportFile := some [] } := by
  have hc1 : caseId c1 = ("unknown" : String).toList := by simp [caseId, h1]
  have hc2 : caseId c2 = ("unknown" : String).toList := by simp [caseId, h2]
  refine ⟨hc1, hc2, ?_⟩
  have hrun : run_evaluation_model parse respond (InputSource.batch [c1, c2]) =
      runCases parse respond [c1, c2] [] [] := rfl
  rw [hrun, runCases_cons_none _ _ _ hf1, runCases_cons_none _ _ _ hf2]
  simp [runCases, debugEntry, hc1, hc2]

/-- Claim C10 witness: two concrete id-less failing cases write to the same
debug file name. -/
theorem C10_witness :
    caseId caseNoId1W = ("unknown" : String).toList ∧
    caseId caseNoId2W = ("unknown" : String).toList ∧
    run_evaluation_model parseFailW respondW
        (InputSource.batch [caseNoId1W, caseNoId2W]) =
      { report := [],
        debugWrites :=
          [(debugFileName (("unknown" : String).toList),
            clean_llm_response (respondW caseNoId1W)),
            (debugFileName (("unknown" : String).toList),
              clean_llm_response (respondW caseNoId2W))],
        aborted := false,
        reportFile := some [] } :=
  C10_missing_id_tagged_unknown parseFailW respondW caseNoId1W caseNoId2W
    rfl rfl rfl rfl

end AIEval
